import Mathlib

/-!
Verification of the AdvantisUI CLI synchronization engine.

The repository contains several near-duplicate snapshots of the CLI.  The two
snapshots whose logic the claims reference are embedded side by side:

* the `Index` definitions follow `src/src/cli/index.ts` (the snapshot with the
  recursive installer, the `wasModifiedLocally` classifier, the update
  executor, and the typed registry listing);
* the `Utils` definitions follow `src/src/cli/utils.ts` and
  `src/unnamed/part_004` (the snapshot whose installer marks the name first
  and never checks for existing files, whose classifier compares the stored
  digest with the remote digest, and whose registry listing has no type
  filter).

JavaScript objects are embedded as association lists over `String` keys,
file contents and digests as `String`, timestamps as `Nat`, and the sha256
digest as an abstract function parameter.
-/

namespace Advantis

/-- Lookup in an association list, mirroring `obj[key]` on a JS object. -/
def lookupA {α : Type} : List (String × α) → String → Option α
  | [], _ => none
  | (k, v) :: rest, key => if k = key then some v else lookupA rest key

/-- Remove a key, used to express `obj[key] = v` as insert-after-erase. -/
def eraseA {α : Type} : List (String × α) → String → List (String × α)
  | [], _ => []
  | (k, v) :: rest, key =>
      if k = key then eraseA rest key else (k, v) :: eraseA rest key

/-- `obj[key] = v` on a JS object: the binding for `key` becomes `v`. -/
def insertA {α : Type} (l : List (String × α)) (key : String) (v : α) :
    List (String × α) :=
  (key, v) :: eraseA l key

theorem lookupA_eraseA_self {α : Type} (l : List (String × α)) (key : String) :
    lookupA (eraseA l key) key = none := by
  induction l with
  | nil => rfl
  | cons kv rest ih =>
      obtain ⟨k, v⟩ := kv
      by_cases h : k = key
      · simp [eraseA, h, ih]
      · simp [eraseA, h, lookupA, ih]

theorem lookupA_eraseA_ne {α : Type} (l : List (String × α)) (key key' : String)
    (h : key ≠ key') : lookupA (eraseA l key) key' = lookupA l key' := by
  induction l with
  | nil => rfl
  | cons kv rest ih =>
      obtain ⟨k, v⟩ := kv
      by_cases hk : k = key
      · subst hk
        simp [eraseA, lookupA, h, ih]
      · simp [eraseA, hk, lookupA, ih]

theorem lookupA_insertA_self {α : Type} (l : List (String × α)) (key : String)
    (v : α) : lookupA (insertA l key v) key = some v := by
  simp [insertA, lookupA]

theorem lookupA_insertA_ne {α : Type} (l : List (String × α)) (key key' : String)
    (v : α) (h : key ≠ key') :
    lookupA (insertA l key v) key' = lookupA l key' := by
  simp [insertA, lookupA, h, lookupA_eraseA_ne l key key' h]

/-- One persisted record of `.advantisui-metadata.json`:
`{ hash, installedAt, lastChecked? }`.  `installedAt` is optional because the
self-heal path of the `utils.ts` checker can create a record carrying only a
hash. -/
structure MetaRecord where
  hash : String
  installedAt : Option Nat
  lastChecked : Option Nat
deriving Repr, DecidableEq

/-- Classification outcome of `checkForUpdates`. -/
inductive Status where
  | upToDate
  | modified
  | outdated
deriving Repr, DecidableEq

/-- Classification of one component in `src/src/cli/index.ts`
(`checkForUpdates`, the `wasModifiedLocally` branch): `modified` exactly when
a stored hash exists and differs from the current hash. -/
def classifyIndex (current : String) (stored : Option String)
    (remoteHash : String) : Status :=
  if current = remoteHash then Status.upToDate
  else
    match stored with
    | some h => if h ≠ current then Status.modified else Status.outdated
    | none => Status.outdated

/-- Classification of one component in `src/src/cli/utils.ts`
(`checkForUpdates`): when the hashes differ, `outdated` exactly when the
stored hash differs from the remote hash. -/
def classifyUtils (current : String) (stored : Option String)
    (remoteHash : String) : Status :=
  if current = remoteHash then Status.upToDate
  else
    match stored with
    | some h => if h ≠ remoteHash then Status.outdated else Status.modified
    | none => Status.outdated

/-- Loop body of `checkForUpdates` in `src/src/cli/index.ts` for one local
file: `none` for the remote hash means the fetch failed (`continue`), and an
existing record gets a fresh `lastChecked` stamp. -/
def checkStepIndex (rec : Option MetaRecord) (current : String)
    (remoteHash : Option String) (t : Nat) : Option Status × Option MetaRecord :=
  match remoteHash with
  | none => (none, rec)
  | some r =>
      let status := classifyIndex current (rec.map (fun m => m.hash)) r
      let rec2 :=
        match rec with
        | some m => some { m with lastChecked := some t }
        | none => none
      (some status, rec2)

/-- Loop body of `checkForUpdates` in `src/src/cli/utils.ts` for one local
file.  On `up-to-date` with a stale stored hash it rewrites the record's hash
to the current digest (`metadata[name] = { ...metadata[name], hash }`). -/
def checkStepUtils (rec : Option MetaRecord) (current : String)
    (remoteHash : Option String) (t : Nat) : Option Status × Option MetaRecord :=
  match remoteHash with
  | none => (none, rec)
  | some r =>
      let status := classifyUtils current (rec.map (fun m => m.hash)) r
      let rec1 :=
        if current = r then
          if rec.map (fun m => m.hash) ≠ some current then
            match rec with
            | some m => some { m with hash := current }
            | none => some { hash := current, installedAt := none, lastChecked := none }
          else rec
        else rec
      let rec2 :=
        match rec1 with
        | some m => some { m with lastChecked := some t }
        | none => none
      (some status, rec2)

/-- C1 counterexample input: current `"a"`, stored `"b"`, remote `"c"` — the
stored digest differs from the remote digest, yet the `index.ts` classifier
answers `modified`, not `outdated` as the claim states. -/
theorem classifyIndex_stored_ne_remote_not_outdated :
    classifyIndex "a" (some "b") "c" = Status.modified ∧
    Status.modified ≠ Status.outdated ∧
    ("a" : String) ≠ "c" ∧ ("b" : String) ≠ "c" := by
  decide

/-- C1: with `current ≠ remote`, the `utils.ts` classifier is `outdated` iff
the stored digest differs from the remote digest and `modified` iff it equals
it (absent stored digest gives `outdated`), exactly as claimed; the
`index.ts` classifier instead answers `modified` iff the stored digest
differs from the *current* digest and `outdated` iff it equals it.  Both are
pure functions of the digest triple. -/
theorem classify_characterization (current stored remoteHash : String)
    (hne : current ≠ remoteHash) :
    (classifyUtils current (some stored) remoteHash = Status.outdated ↔
        stored ≠ remoteHash) ∧
    (classifyUtils current (some stored) remoteHash = Status.modified ↔
        stored = remoteHash) ∧
    classifyUtils current none remoteHash = Status.outdated ∧
    (classifyIndex current (some stored) remoteHash = Status.modified ↔
        stored ≠ current) ∧
    (classifyIndex current (some stored) remoteHash = Status.outdated ↔
        stored = current) ∧
    classifyIndex current none remoteHash = Status.outdated := by
  refine ⟨?_, ?_, ?_, ?_, ?_, ?_⟩ <;>
    simp only [classifyUtils, classifyIndex, if_neg hne] <;>
    by_cases h1 : stored = remoteHash <;>
    by_cases h2 : stored = current <;>
    simp [h1, h2]

/-- Witness for `classify_characterization` at the triple
`("a", "b", "c")`. -/
theorem classify_characterization_witness :
    ("a" : String) ≠ "c" ∧
    ((classifyUtils "a" (some "b") "c" = Status.outdated ↔ ("b" : String) ≠ "c") ∧
    (classifyUtils "a" (some "b") "c" = Status.modified ↔ ("b" : String) = "c") ∧
    classifyUtils "a" none "c" = Status.outdated ∧
    (classifyIndex "a" (some "b") "c" = Status.modified ↔ ("b" : String) ≠ "a") ∧
    (classifyIndex "a" (some "b") "c" = Status.outdated ↔ ("b" : String) = "a") ∧
    classifyIndex "a" none "c" = Status.outdated) :=
  ⟨by decide, classify_characterization "a" "b" "c" (by decide)⟩

/-- C5 counterexample input: the local file already matches the registry
(`current = remote = "h2"`) but the stored hash is the stale `"h1"`; the
`index.ts` checker reports `up-to-date` yet keeps the stale hash `"h1"` in
the record (only `lastChecked` is refreshed), so no rewrite happens. -/
theorem checkStepIndex_no_selfheal :
    checkStepIndex (some ⟨"h1", some 5, none⟩) "h2" (some "h2") 9 =
      (some Status.upToDate, some ⟨"h1", some 5, some 9⟩) ∧
    ("h1" : String) ≠ "h2" := by
  decide

/-- C5: when the current digest equals the remote digest but the stored
digest differs, the `utils.ts` checker reports `up-to-date` and silently
rewrites the record's hash to the current digest, while the `index.ts`
checker reports `up-to-date` but leaves the stored hash unchanged, refreshing
only `lastChecked`.  Neither step involves user interaction. -/
theorem checkStep_selfheal (m : MetaRecord) (current : String) (t : Nat)
    (hstale : m.hash ≠ current) :
    checkStepUtils (some m) current (some current) t =
      (some Status.upToDate, some ⟨current, m.installedAt, some t⟩) ∧
    checkStepIndex (some m) current (some current) t =
      (some Status.upToDate, some ⟨m.hash, m.installedAt, some t⟩) := by
  constructor
  · simp [checkStepUtils, classifyUtils, hstale]
  · simp [checkStepIndex, classifyIndex]

/-- Witness for `checkStep_selfheal` at a concrete stale record. -/
theorem checkStep_selfheal_witness :
    ("h1" : String) ≠ "h2" ∧
    (checkStepUtils (some ⟨"h1", some 5, none⟩) "h2" (some "h2") 9 =
      (some Status.upToDate, some ⟨"h2", some 5, some 9⟩) ∧
    checkStepIndex (some ⟨"h1", some 5, none⟩) "h2" (some "h2") 9 =
      (some Status.upToDate, some ⟨"h1", some 5, some 9⟩)) :=
  ⟨by decide, checkStep_selfheal ⟨"h1", some 5, none⟩ "h2" 9 (by decide)⟩

/-- State threaded through `updateComponents`: the files of the output
directory (path to content), the in-memory metadata store, and the two
summary counters. -/
structure UpdState where
  files : List (String × String)
  metadata : List (String × MetaRecord)
  updated : Nat
  failed : Nat
deriving Repr, DecidableEq

/-- What happens to one component after its backup is created: either the
download completes with the new content, or some step between the fetch and
the metadata upsert throws, leaving the live file either untouched (`none`)
or clobbered with partial content (`some leftover`). -/
inductive UpdOutcome where
  | success (content : String)
  | failure (leftover : Option String)
deriving Repr, DecidableEq

/-- Loop body of `updateComponents` (identical in `src/src/cli/index.ts` and
`src/src/cli/utils.ts`): copy the live file to `<name>.tsx.backup`, download
over the live file, upsert the metadata record (keeping a pre-existing
`installedAt`), and unlink the backup; on a throw, restore the live file from
the backup when it exists, unlink the backup, and count a failure. -/
def updateStep (digest : String → String) (t : Nat) (st : UpdState)
    (name : String) (outcome : UpdOutcome) : UpdState :=
  let filePath := name ++ ".tsx"
  let backupPath := name ++ ".tsx.backup"
  match lookupA st.files filePath with
  | none =>
      { st with failed := st.failed + 1 }
  | some live =>
      let fs1 := insertA st.files backupPath live
      match outcome with
      | UpdOutcome.success c =>
          let fs2 := insertA fs1 filePath c
          let newRec : MetaRecord :=
            { hash := digest c,
              installedAt :=
                match lookupA st.metadata name with
                | some m =>
                    match m.installedAt with
                    | some x => some x
                    | none => some t
                | none => some t,
              lastChecked := some t }
          { files := eraseA fs2 backupPath,
            metadata := insertA st.metadata name newRec,
            updated := st.updated + 1,
            failed := st.failed }
      | UpdOutcome.failure leftover =>
          let fs2 :=
            match leftover with
            | some p => insertA fs1 filePath p
            | none => fs1
          let fs3 :=
            match lookupA fs2 backupPath with
            | some b => eraseA (insertA fs2 filePath b) backupPath
            | none => fs2
          { files := fs3,
            metadata := st.metadata,
            updated := st.updated,
            failed := st.failed + 1 }

/-- `updateComponents`: process every selected component independently; the
store is saved once after the full pass (the in-memory store is the
persisted one in this embedding). -/
def updateComponents (digest : String → String) (t : Nat)
    (outcomes : String → UpdOutcome) (names : List String) (st : UpdState) :
    UpdState :=
  names.foldl (fun s n => updateStep digest t s n (outcomes n)) st

theorem tsx_ne_backup (name : String) :
    name ++ ".tsx" ≠ name ++ ".tsx.backup" := by
  intro h
  have h2 := congrArg (fun s => s.data.length) h
  simp only [String.data_append, List.length_append] at h2
  have e1 : (".tsx" : String).data.length = 4 := by decide
  have e2 : (".tsx.backup" : String).data.length = 11 := by decide
  rw [e1, e2] at h2
  omega

/-- C2: if a selected component's step fails anywhere after backup creation
(fetch, overwrite, digest or metadata upsert, with the live file possibly
clobbered), then afterwards the live file holds its pre-update content, the
backup file is gone, the metadata record is untouched, the component counts
as failed (not updated), and the remaining selected components are still
processed. -/
theorem updateStep_rollback (digest : String → String) (t : Nat)
    (outcomes : String → UpdOutcome) (name : String) (rest : List String)
    (st : UpdState) (live : String) (leftover : Option String)
    (hfile : lookupA st.files (name ++ ".tsx") = some live)
    (hout : outcomes name = UpdOutcome.failure leftover) :
    lookupA (updateStep digest t st name (UpdOutcome.failure leftover)).files
        (name ++ ".tsx") = some live ∧
    lookupA (updateStep digest t st name (UpdOutcome.failure leftover)).files
        (name ++ ".tsx.backup") = none ∧
    (updateStep digest t st name (UpdOutcome.failure leftover)).metadata =
        st.metadata ∧
    (updateStep digest t st name (UpdOutcome.failure leftover)).updated =
        st.updated ∧
    (updateStep digest t st name (UpdOutcome.failure leftover)).failed =
        st.failed + 1 ∧
    updateComponents digest t outcomes (name :: rest) st =
        updateComponents digest t outcomes rest
          (updateStep digest t st name (UpdOutcome.failure leftover)) := by
  have hne := tsx_ne_backup name
  have hbackup :
      lookupA
        (match leftover with
          | some p => insertA (insertA st.files (name ++ ".tsx.backup") live)
              (name ++ ".tsx") p
          | none => insertA st.files (name ++ ".tsx.backup") live)
        (name ++ ".tsx.backup") = some live := by
    cases leftover with
    | none => exact lookupA_insertA_self _ _ _
    | some p =>
        rw [lookupA_insertA_ne _ _ _ _ hne, lookupA_insertA_self]
  refine ⟨?_, ?_, ?_, ?_, ?_, ?_⟩
  · simp only [updateStep, hfile, hbackup]
    rw [lookupA_eraseA_ne _ _ _ (Ne.symm hne), lookupA_insertA_self]
  · simp only [updateStep, hfile, hbackup]
    rw [lookupA_eraseA_self]
  · simp only [updateStep, hfile, hbackup]
  · simp only [updateStep, hfile, hbackup]
  · simp only [updateStep, hfile, hbackup]
  · simp only [updateComponents, List.foldl_cons, hout]

/-- Witness for `updateStep_rollback`: component `"a"` with live content
`"old"`, a failure that clobbers the live file with `"junk"`, and `"b"` still
to process. -/
theorem updateStep_rollback_witness :
    lookupA (updateStep (fun s => s) 7 ⟨[("a.tsx", "old"), ("b.tsx", "B")],
        [("a", ⟨"x", some 1, none⟩)], 0, 0⟩ "a"
        (UpdOutcome.failure (some "junk"))).files ("a" ++ ".tsx") = some "old" ∧
    lookupA (updateStep (fun s => s) 7 ⟨[("a.tsx", "old"), ("b.tsx", "B")],
        [("a", ⟨"x", some 1, none⟩)], 0, 0⟩ "a"
        (UpdOutcome.failure (some "junk"))).files ("a" ++ ".tsx.backup") = none ∧
    (updateStep (fun s => s) 7 ⟨[("a.tsx", "old"), ("b.tsx", "B")],
        [("a", ⟨"x", some 1, none⟩)], 0, 0⟩ "a"
        (UpdOutcome.failure (some "junk"))).metadata =
      [("a", ⟨"x", some 1, none⟩)] ∧
    (updateStep (fun s => s) 7 ⟨[("a.tsx", "old"), ("b.tsx", "B")],
        [("a", ⟨"x", some 1, none⟩)], 0, 0⟩ "a"
        (UpdOutcome.failure (some "junk"))).updated = 0 ∧
    (updateStep (fun s => s) 7 ⟨[("a.tsx", "old"), ("b.tsx", "B")],
        [("a", ⟨"x", some 1, none⟩)], 0, 0⟩ "a"
        (UpdOutcome.failure (some "junk"))).failed = 0 + 1 ∧
    updateComponents (fun s => s) 7 (fun _ => UpdOutcome.failure (some "junk"))
        ["a", "b"] ⟨[("a.tsx", "old"), ("b.tsx", "B")],
        [("a", ⟨"x", some 1, none⟩)], 0, 0⟩ =
      updateComponents (fun s => s) 7 (fun _ => UpdOutcome.failure (some "junk"))
        ["b"] (updateStep (fun s => s) 7 ⟨[("a.tsx", "old"), ("b.tsx", "B")],
          [("a", ⟨"x", some 1, none⟩)], 0, 0⟩ "a"
          (UpdOutcome.failure (some "junk"))) :=
  updateStep_rollback (fun s => s) 7 (fun _ => UpdOutcome.failure (some "junk"))
    "a" ["b"] ⟨[("a.tsx", "old"), ("b.tsx", "B")], [("a", ⟨"x", some 1, none⟩)], 0, 0⟩
    "old" (some "junk") (by decide) rfl

/-- State threaded through `installComponent`: the output directory files,
the metadata store, the `installed` visited set, the list of successfully
installed names in completion order, the log of attempted downloads, and a
flag recording that the fuel-indexed model ran out of fuel (the real
recursion would still be running). -/
structure InstState where
  files : List (String × String)
  metadata : List (String × MetaRecord)
  installed : List String
  order : List String
  fetched : List String
  fuelOut : Bool
deriving Repr, DecidableEq

/-- The empty output directory: no files, no records, fresh visited set. -/
def emptyInst : InstState := ⟨[], [], [], [], [], false⟩

/-- `installComponent` of `src/src/cli/index.ts`: skip if visited; if the
target file exists only mark the name visited; otherwise recurse into the
`componentRelations` entries first, then download, mark visited, and write a
fresh metadata record (`hash`, `installedAt`, no `lastChecked`).  A failed
download only logs.  The recursion is modelled with fuel; exhausted fuel sets
`fuelOut`. -/
def installComponentIndex (remoteSrc : String → Option String)
    (rels : String → List String) (digest : String → String) (t : Nat) :
    Nat → InstState → String → InstState
  | 0, st, _ => { st with fuelOut := true }
  | Nat.succ fuel, st, name =>
    if name ∈ st.installed then st
    else
      match lookupA st.files (name ++ ".tsx") with
      | some _ => { st with installed := name :: st.installed }
      | none =>
        let st1 := (rels name).foldl
          (fun s d => installComponentIndex remoteSrc rels digest t fuel s d) st
        match remoteSrc name with
        | some content =>
            { st1 with
              files := insertA st1.files (name ++ ".tsx") content,
              installed := name :: st1.installed,
              metadata := insertA st1.metadata name
                ⟨digest content, some t, none⟩,
              order := st1.order ++ [name],
              fetched := st1.fetched ++ [name] }
        | none => { st1 with fetched := st1.fetched ++ [name] }

/-- `installComponent` of `src/src/cli/utils.ts` and `src/unnamed/part_004`:
mark the name visited immediately, then always download (no existing-file
check, no edge recursion); on success write a record with a fresh
`installedAt` and `lastChecked`. -/
def installComponentUtils (remoteSrc : String → Option String)
    (digest : String → String) (t : Nat) (st : InstState) (name : String) :
    InstState :=
  if name ∈ st.installed then st
  else
    let st1 := { st with installed := name :: st.installed }
    match remoteSrc name with
    | some content =>
        { st1 with
          files := insertA st1.files (name ++ ".tsx") content,
          metadata := insertA st1.metadata name
            ⟨digest content, some t, some t⟩,
          order := st1.order ++ [name],
          fetched := st1.fetched ++ [name] }
    | none => { st1 with fetched := st1.fetched ++ [name] }

theorem installComponentIndex_succ (remoteSrc : String → Option String)
    (rels : String → List String) (digest : String → String) (t : Nat)
    (fuel : Nat) (st : InstState) (name : String) :
    installComponentIndex remoteSrc rels digest t (fuel + 1) st name =
      if name ∈ st.installed then st
      else
        match lookupA st.files (name ++ ".tsx") with
        | some _ => { st with installed := name :: st.installed }
        | none =>
          let st1 := (rels name).foldl
            (fun s d => installComponentIndex remoteSrc rels digest t fuel s d) st
          match remoteSrc name with
          | some content =>
              { st1 with
                files := insertA st1.files (name ++ ".tsx") content,
                installed := name :: st1.installed,
                metadata := insertA st1.metadata name
                  ⟨digest content, some t, none⟩,
                order := st1.order ++ [name],
                fetched := st1.fetched ++ [name] }
          | none => { st1 with fetched := st1.fetched ++ [name] } := rfl

/-- C3 counterexample: installing `button` through the `utils.ts` installer
at time 1 and again (fresh visited set, same registry content) at time 2
resets the record's `installedAt` from 1 to 2 even though the file content is
unchanged, so the second install is not idempotent on the record. -/
theorem installUtils_reinstall_resets_installedAt :
    (lookupA (installComponentUtils
        (fun n => if n = "button" then some "BTN" else none) (fun s => s) 1
        emptyInst "button").metadata "button").map (fun m => m.installedAt) =
      some (some 1) ∧
    (lookupA (installComponentUtils
        (fun n => if n = "button" then some "BTN" else none) (fun s => s) 2
        { installComponentUtils
            (fun n => if n = "button" then some "BTN" else none) (fun s => s) 1
            emptyInst "button" with
          installed := [] } "button").metadata "button").map
        (fun m => m.installedAt) = some (some 2) ∧
    lookupA (installComponentUtils
        (fun n => if n = "button" then some "BTN" else none) (fun s => s) 2
        { installComponentUtils
            (fun n => if n = "button" then some "BTN" else none) (fun s => s) 1
            emptyInst "button" with
          installed := [] } "button").files ("button" ++ ".tsx") =
      lookupA (installComponentUtils
        (fun n => if n = "button" then some "BTN" else none) (fun s => s) 1
        emptyInst "button").files ("button" ++ ".tsx") := by
  decide

/-- C3: re-installing a component whose file already exists through the
`index.ts` installer changes neither the output files nor the metadata
store, so `installedAt` and the file content are untouched; the
`utils.ts`/`part_004` installer instead re-downloads and stamps a fresh
`installedAt`. -/
theorem installIndex_reinstall_noop (remoteSrc : String → Option String)
    (rels : String → List String) (digest : String → String) (t fuel : Nat)
    (st : InstState) (name c : String)
    (hfile : lookupA st.files (name ++ ".tsx") = some c) :
    (installComponentIndex remoteSrc rels digest t (fuel + 1) st name).files =
        st.files ∧
    (installComponentIndex remoteSrc rels digest t (fuel + 1) st name).metadata =
        st.metadata := by
  rw [installComponentIndex_succ]
  by_cases hmem : name ∈ st.installed
  · simp [hmem]
  · simp [hmem, hfile]

/-- Witness for `installIndex_reinstall_noop` on a directory that already
holds `button.tsx`. -/
theorem installIndex_reinstall_noop_witness :
    (installComponentIndex (fun n => some n) (fun _ => []) (fun s => s) 9 1
        ⟨[("button.tsx", "BTN")], [("button", ⟨"h", some 1, none⟩)], [], [], [],
          false⟩ "button").files = [("button.tsx", "BTN")] ∧
    (installComponentIndex (fun n => some n) (fun _ => []) (fun s => s) 9 1
        ⟨[("button.tsx", "BTN")], [("button", ⟨"h", some 1, none⟩)], [], [], [],
          false⟩ "button").metadata = [("button", ⟨"h", some 1, none⟩)] :=
  installIndex_reinstall_noop (fun n => some n) (fun _ => []) (fun s => s) 9 0
    ⟨[("button.tsx", "BTN")], [("button", ⟨"h", some 1, none⟩)], [], [], [], false⟩
    "button" "BTN" (by decide)

/-- C10: in the `index.ts` installer, when `<outDir>/<name>.tsx` already
exists and the name is not yet visited, the call performs no download and
returns the state unchanged except for marking the name visited: files,
metadata store, success order and fetch log are all identical. -/
theorem installIndex_existing_file_frame (remoteSrc : String → Option String)
    (rels : String → List String) (digest : String → String) (t fuel : Nat)
    (st : InstState) (name c : String) (hmem : name ∉ st.installed)
    (hfile : lookupA st.files (name ++ ".tsx") = some c) :
    installComponentIndex remoteSrc rels digest t (fuel + 1) st name =
      { st with installed := name :: st.installed } := by
  rw [installComponentIndex_succ]
  simp [hmem, hfile]

/-- Witness for `installIndex_existing_file_frame`: re-adding an existing
`button.tsx` with a stale record does not refresh the record or fetch. -/
theorem installIndex_existing_file_frame_witness :
    installComponentIndex (fun n => some n) (fun _ => []) (fun s => s) 9 1
        ⟨[("button.tsx", "OLD")], [("button", ⟨"stale", some 1, none⟩)], [], [],
          [], false⟩ "button" =
      { (⟨[("button.tsx", "OLD")], [("button", ⟨"stale", some 1, none⟩)], [], [],
          [], false⟩ : InstState) with
        installed := ["button"] } :=
  installIndex_existing_file_frame (fun n => some n) (fun _ => []) (fun s => s)
    9 0 ⟨[("button.tsx", "OLD")], [("button", ⟨"stale", some 1, none⟩)], [], [],
      [], false⟩ "button" "OLD" (by decide) (by decide)

/-- Lookup of `componentRelations[name] || []` for an edge table. -/
def relsOfTable (table : List (String × List String)) (name : String) :
    List String :=
  (lookupA table name).getD []

/-- The configured Dependency Edge table of `src/unnamed/part_000`:
`contextmenu` and `dropdown` require `button`. -/
def componentRelations : List (String × List String) :=
  [("contextmenu", ["button"]), ("dropdown", ["button"])]

/-- A cyclic edge table: `a` requires `b` and `b` requires `a`. -/
def cyclicRelations : List (String × List String) :=
  [("a", ["b"]), ("b", ["a"])]

/-- The diamond edge table: `A` requires `B, C`; `B` and `C` require `D`. -/
def diamondRelations : List (String × List String) :=
  [("A", ["B", "C"]), ("B", ["D"]), ("C", ["D"])]

theorem installIndex_cycle_step_a (fuel : Nat) :
    (installComponentIndex (fun n => some n) (relsOfTable cyclicRelations)
        (fun s => s) 0 (fuel + 1) emptyInst "a").fuelOut =
      (installComponentIndex (fun n => some n) (relsOfTable cyclicRelations)
        (fun s => s) 0 fuel emptyInst "b").fuelOut := rfl

theorem installIndex_cycle_step_b (fuel : Nat) :
    (installComponentIndex (fun n => some n) (relsOfTable cyclicRelations)
        (fun s => s) 0 (fuel + 1) emptyInst "b").fuelOut =
      (installComponentIndex (fun n => some n) (relsOfTable cyclicRelations)
        (fun s => s) 0 fuel emptyInst "a").fuelOut := rfl

/-- C4: on the cyclic edge table with no component file present locally, the
`index.ts` installer never completes — for every recursion budget the run
still ends by exhausting its fuel, because the name is inserted into the
visited set only after its download succeeds, which the recursion into the
edges never reaches. -/
theorem installIndex_cycle_never_completes :
    ∀ fuel : Nat,
      (installComponentIndex (fun n => some n) (relsOfTable cyclicRelations)
        (fun s => s) 0 fuel emptyInst "a").fuelOut = true := by
  have key : ∀ fuel : Nat,
      (installComponentIndex (fun n => some n) (relsOfTable cyclicRelations)
        (fun s => s) 0 fuel emptyInst "a").fuelOut = true ∧
      (installComponentIndex (fun n => some n) (relsOfTable cyclicRelations)
        (fun s => s) 0 fuel emptyInst "b").fuelOut = true := by
    intro fuel
    induction fuel with
    | zero => exact ⟨rfl, rfl⟩
    | succ fuel ih =>
        exact ⟨(installIndex_cycle_step_a fuel).trans ih.2,
          (installIndex_cycle_step_b fuel).trans ih.1⟩
  exact fun fuel => (key fuel).1

/-- Concrete instance of `installIndex_cycle_never_completes`: even with
fuel 9 the cyclic table exhausts the model's recursion budget. -/
theorem installIndex_cycle_never_completes_witness :
    (installComponentIndex (fun n => some n) (relsOfTable cyclicRelations)
      (fun s => s) 0 9 emptyInst "a").fuelOut = true :=
  installIndex_cycle_never_completes 9

/-- The install order produced by the `index.ts` installer from an empty
directory when every fetch succeeds: the successful installs in completion
order. -/
def resolveRun (table : List (String × List String)) (fuel : Nat)
    (name : String) : List String :=
  (installComponentIndex (fun n => some n) (relsOfTable table) (fun s => s) 0
    fuel emptyInst name).order

theorem resolveRun_other (name : String) (h1 : name ≠ "contextmenu")
    (h2 : name ≠ "dropdown") :
    installComponentIndex (fun n => some n) (relsOfTable componentRelations)
        (fun s => s) 0 3 emptyInst name =
      { emptyInst with
        files := insertA emptyInst.files (name ++ ".tsx") name,
        installed := [name],
        metadata := insertA emptyInst.metadata name ⟨name, some 0, none⟩,
        order := [name],
        fetched := [name] } := by
  have hrels : relsOfTable componentRelations name = [] := by
    simp [relsOfTable, componentRelations, lookupA, Ne.symm h1, Ne.symm h2]
  rw [show (3 : Nat) = 2 + 1 from rfl, installComponentIndex_succ]
  simp only [hrels]
  rfl

/-- C7: with the configured edge table, every requested name yields an
install order without duplicates that ends with the requested name and puts
every required component strictly before its dependent (so `contextmenu` and
`dropdown` install `button` first); on the diamond table, resolving `A`
installs the shared dependency `D` exactly once, before both `B` and `C`,
with `A` last. -/
theorem resolver_order_correct :
    ∀ name : String,
      ((resolveRun componentRelations 3 name).Nodup ∧
       (resolveRun componentRelations 3 name).getLast? = some name ∧
       (∀ a, a ∈ resolveRun componentRelations 3 name →
          ∀ b, b ∈ relsOfTable componentRelations a →
            b ∈ resolveRun componentRelations 3 name ∧
            (resolveRun componentRelations 3 name).indexOf b <
              (resolveRun componentRelations 3 name).indexOf a)) ∧
      resolveRun diamondRelations 5 "A" = ["D", "B", "C", "A"] := by
  intro name
  by_cases h1 : name = "contextmenu"
  · subst h1
    exact ⟨by decide, by decide⟩
  by_cases h2 : name = "dropdown"
  · subst h2
    exact ⟨by decide, by decide⟩
  · have hrun : resolveRun componentRelations 3 name = [name] := by
      rw [resolveRun, resolveRun_other name h1 h2]
    have hrels : relsOfTable componentRelations name = [] := by
      simp [relsOfTable, componentRelations, lookupA, Ne.symm h1, Ne.symm h2]
    refine ⟨⟨?_, ?_, ?_⟩, by decide⟩
    · rw [hrun]; exact List.nodup_singleton name
    · rw [hrun]; rfl
    · intro a ha b hb
      rw [hrun] at ha
      rw [List.mem_singleton] at ha
      subst ha
      rw [hrels] at hb
      exact absurd hb (List.not_mem_nil b)

/-- Instance of `resolver_order_correct`: the diamond order. -/
theorem resolver_order_correct_witness :
    resolveRun diamondRelations 5 "A" = ["D", "B", "C", "A"] :=
  (resolver_order_correct "x").2

/-- The §3 invariant: a metadata record exists for a name exactly when that
name has been successfully installed at least once (the `order` log). -/
def metadataRecordInv (st : InstState) : Prop :=
  ∀ n, (lookupA st.metadata n).isSome = true ↔ n ∈ st.order

theorem installIndex_metadata_stable (remoteSrc : String → Option String)
    (rels : String → List String) (digest : String → String) (t : Nat)
    (n : String) (hn : remoteSrc n = none) :
    ∀ (fuel : Nat) (st : InstState) (name : String),
      lookupA (installComponentIndex remoteSrc rels digest t fuel st name).metadata
        n = lookupA st.metadata n := by
  intro fuel
  induction fuel with
  | zero => intro st name; rfl
  | succ fuel ih =>
      intro st name
      rw [installComponentIndex_succ]
      by_cases hmem : name ∈ st.installed
      · rw [if_pos hmem]
      · rw [if_neg hmem]
        cases hfile : lookupA st.files (name ++ ".tsx") with
        | some c => rfl
        | none =>
            dsimp only
            have hfold : ∀ (l : List String) (s : InstState),
                lookupA ((l.foldl
                  (fun s d => installComponentIndex remoteSrc rels digest t fuel s d)
                  s)).metadata n = lookupA s.metadata n := by
              intro l
              induction l with
              | nil => intro s; rfl
              | cons d ds ihl => intro s; rw [List.foldl_cons, ihl, ih]
            cases hr : remoteSrc name with
            | none => exact hfold _ _
            | some content =>
                have hne : name ≠ n := by
                  intro h
                  subst h
                  rw [hn] at hr
                  cases hr
                show lookupA (insertA _ name (⟨digest content, some t, none⟩ : MetaRecord)) n =
                  lookupA st.metadata n
                rw [lookupA_insertA_ne _ _ _ _ hne, hfold]

theorem installIndex_preserves_recordInv (remoteSrc : String → Option String)
    (rels : String → List String) (digest : String → String) (t : Nat) :
    ∀ (fuel : Nat) (st : InstState) (name : String), metadataRecordInv st →
      metadataRecordInv
        (installComponentIndex remoteSrc rels digest t fuel st name) := by
  intro fuel
  induction fuel with
  | zero => intro st name h; exact h
  | succ fuel ih =>
      intro st name h
      rw [installComponentIndex_succ]
      by_cases hmem : name ∈ st.installed
      · rw [if_pos hmem]; exact h
      · rw [if_neg hmem]
        cases hfile : lookupA st.files (name ++ ".tsx") with
        | some c => exact h
        | none =>
            dsimp only
            have hfold : ∀ (l : List String) (s : InstState), metadataRecordInv s →
                metadataRecordInv (l.foldl
                  (fun s d => installComponentIndex remoteSrc rels digest t fuel s d)
                  s) := by
              intro l
              induction l with
              | nil => intro s hs; exact hs
              | cons d ds ihl =>
                  intro s hs
                  rw [List.foldl_cons]
                  exact ihl _ (ih _ _ hs)
            cases hr : remoteSrc name with
            | none => exact hfold _ _ h
            | some content =>
                intro m
                by_cases hm : m = name
                · subst hm
                  constructor
                  · intro _
                    show m ∈ _ ++ [m]
                    exact List.mem_append_right _ (List.mem_singleton_self m)
                  · intro _
                    show (lookupA (insertA _ m (⟨digest content, some t, none⟩ : MetaRecord))
                      m).isSome = true
                    rw [lookupA_insertA_self]
                    rfl
                · have base := hfold (rels name) st h m
                  show (lookupA (insertA _ name (⟨digest content, some t, none⟩ : MetaRecord))
                      m).isSome = true ↔ m ∈ _ ++ [name]
                  rw [lookupA_insertA_ne _ _ _ _ (fun he => hm he.symm),
                    List.mem_append, List.mem_singleton]
                  constructor
                  · intro hs
                    exact Or.inl (base.mp hs)
                  · intro hs
                    rcases hs with hs | hs
                    · exact base.mpr hs
                    · exact absurd hs hm

theorem installUtils_metadata_stable (remoteSrc : String → Option String)
    (digest : String → String) (t : Nat) (n : String)
    (hn : remoteSrc n = none) (st : InstState) (name : String) :
    lookupA (installComponentUtils remoteSrc digest t st name).metadata n =
      lookupA st.metadata n := by
  unfold installComponentUtils
  by_cases hmem : name ∈ st.installed
  · rw [if_pos hmem]
  · rw [if_neg hmem]
    dsimp only
    cases hr : remoteSrc name with
    | none => rfl
    | some content =>
        have hne : name ≠ n := by
          intro h
          subst h
          rw [hn] at hr
          cases hr
        exact lookupA_insertA_ne _ _ _ _ hne

theorem installUtils_preserves_recordInv (remoteSrc : String → Option String)
    (digest : String → String) (t : Nat) (st : InstState) (name : String)
    (h : metadataRecordInv st) :
    metadataRecordInv (installComponentUtils remoteSrc digest t st name) := by
  unfold installComponentUtils
  by_cases hmem : name ∈ st.installed
  · rw [if_pos hmem]; exact h
  · rw [if_neg hmem]
    dsimp only
    cases hr : remoteSrc name with
    | none => exact h
    | some content =>
        intro m
        by_cases hm : m = name
        · subst hm
          constructor
          · intro _
            show m ∈ _ ++ [m]
            exact List.mem_append_right _ (List.mem_singleton_self m)
          · intro _
            show (lookupA (insertA _ m (⟨digest content, some t, some t⟩ : MetaRecord))
              m).isSome = true
            rw [lookupA_insertA_self]
            rfl
        · show (lookupA (insertA _ name (⟨digest content, some t, some t⟩ : MetaRecord))
              m).isSome = true ↔ m ∈ _ ++ [name]
          rw [lookupA_insertA_ne _ _ _ _ (fun he => hm he.symm),
            List.mem_append, List.mem_singleton]
          constructor
          · intro hs
            exact Or.inl ((h m).mp hs)
          · intro hs
            rcases hs with hs | hs
            · exact (h m).mpr hs
            · exact absurd hs hm

/-- C6: for both installer snapshots, a name whose fetch always fails keeps
exactly the metadata it had before (no record is created or altered for it),
and both installers preserve the invariant that a metadata record exists for
a name iff that name has been successfully installed at least once. -/
theorem metadata_record_iff_installed (remoteSrc : String → Option String)
    (rels : String → List String) (digest : String → String) (t : Nat)
    (n : String) :
    (remoteSrc n = none →
      (∀ (fuel : Nat) (st : InstState) (name : String),
        lookupA (installComponentIndex remoteSrc rels digest t fuel st
          name).metadata n = lookupA st.metadata n) ∧
      (∀ (st : InstState) (name : String),
        lookupA (installComponentUtils remoteSrc digest t st name).metadata n =
          lookupA st.metadata n)) ∧
    (∀ (fuel : Nat) (st : InstState) (name : String), metadataRecordInv st →
      metadataRecordInv
        (installComponentIndex remoteSrc rels digest t fuel st name)) ∧
    (∀ (st : InstState) (name : String), metadataRecordInv st →
      metadataRecordInv (installComponentUtils remoteSrc digest t st name)) :=
  ⟨fun hn =>
    ⟨installIndex_metadata_stable remoteSrc rels digest t n hn,
     installUtils_metadata_stable remoteSrc digest t n hn⟩,
   installIndex_preserves_recordInv remoteSrc rels digest t,
   installUtils_preserves_recordInv remoteSrc digest t⟩

/-- Witness for `metadata_record_iff_installed`: a registry with nothing to
serve leaves the empty store without a record for `"z"`, and the invariant
holds after running the installer on the empty store. -/
theorem metadata_record_iff_installed_witness :
    lookupA (installComponentIndex (fun _ => none) (fun _ => []) (fun s => s) 0
        2 emptyInst "z").metadata "z" = lookupA emptyInst.metadata "z" ∧
    metadataRecordInv (installComponentIndex (fun _ => none) (fun _ => [])
        (fun s => s) 0 2 emptyInst "z") :=
  ⟨(((metadata_record_iff_installed (fun _ => none) (fun _ => []) (fun s => s) 0
      "z").1) rfl).1 2 emptyInst "z",
   ((metadata_record_iff_installed (fun _ => none) (fun _ => []) (fun s => s) 0
      "z").2.1) 2 emptyInst "z"
     (by intro n; simp [metadataRecordInv, emptyInst, lookupA])⟩

/-- `loadMetadata(outDir)`: `none` for the file means
`fs.existsSync(metadataPath)` is false; otherwise `JSON.parse` is the
abstract `parse` argument, whose failure (`none`) is caught with a warning.
Both failure modes return the empty store; the function is total, so it
never throws. -/
def loadMetadata (parse : String → Option (List (String × MetaRecord)))
    (file : Option String) : List (String × MetaRecord) :=
  match file with
  | none => []
  | some s =>
      match parse s with
      | some m => m
      | none => []

/-- C8: loading the metadata store never throws — a missing document yields
the empty store and an unparseable document yields the empty store. -/
theorem loadMetadata_total (parse : String → Option (List (String × MetaRecord))) :
    loadMetadata parse none = [] ∧
    ∀ s : String, parse s = none → loadMetadata parse (some s) = [] := by
  constructor
  · rfl
  · intro s hs
    simp [loadMetadata, hs]

/-- Witness for `loadMetadata_total` with a parse function that rejects
everything and the corrupt document `"not json"`. -/
theorem loadMetadata_total_witness :
    loadMetadata (fun _ => none) none = [] ∧
    loadMetadata (fun _ => none) (some "not json") = [] :=
  ⟨(loadMetadata_total (fun _ => none)).1,
   (loadMetadata_total (fun _ => none)).2 "not json" rfl⟩

/-- One entry of the GitHub contents listing: `{ name, type }`. -/
structure DirEntry where
  name : String
  type : String
deriving Repr, DecidableEq

/-- The characters of the component file extension `".tsx"`. -/
def tsxSuffix : List Char := ['.', 't', 's', 'x']

/-- `name.endsWith(".tsx")`. -/
def endsWithTsx (s : String) : Bool := tsxSuffix.isSuffixOf s.data

/-- `name.replace(/\.tsx$/, "")`: strip the extension from the end when it
is there. -/
def replaceEndTsx (s : String) : String :=
  if endsWithTsx s then String.mk (s.data.take (s.data.length - 4)) else s

/-- JS `String.prototype.replace` with the plain pattern `".tsx"`: remove
the first occurrence only. -/
def removeFirstTsx : List Char → List Char
  | [] => []
  | c :: rest =>
      if tsxSuffix.isPrefixOf (c :: rest) then (c :: rest).drop 4
      else c :: removeFirstTsx rest

/-- `name.replace(".tsx", "")` of `src/src/cli/utils.ts`. -/
def replaceFirstTsx (s : String) : String := String.mk (removeFirstTsx s.data)

/-- `getComponents` of `src/src/cli/index.ts`: keep entries with
`type == "file"` whose name ends with `.tsx`, stripping the extension from
the end. -/
def getComponentsIndex (entries : List DirEntry) : List String :=
  (entries.filter (fun f => f.type == "file" && endsWithTsx f.name)).map
    (fun f => replaceEndTsx f.name)

/-- `getComponents` of `src/src/cli/utils.ts` and `src/unnamed/part_004`:
no `type` check, and the replacement removes the first `.tsx` occurrence. -/
def getComponentsUtils (entries : List DirEntry) : List String :=
  (entries.filter (fun f => endsWithTsx f.name)).map
    (fun f => replaceFirstTsx f.name)

theorem tsx_data : (".tsx" : String).data = tsxSuffix := by decide

theorem replaceEndTsx_append (c : String) :
    replaceEndTsx (c ++ ".tsx") = c := by
  have hdata : (c ++ ".tsx").data = c.data ++ tsxSuffix := by
    rw [String.data_append, tsx_data]
  have hsuffix : endsWithTsx (c ++ ".tsx") = true := by
    rw [endsWithTsx, hdata]
    exact List.isSuffixOf_iff_suffix.mpr ⟨c.data, rfl⟩
  rw [replaceEndTsx, if_pos hsuffix, hdata]
  have hlen : (c.data ++ tsxSuffix).length - 4 = c.data.length := by
    simp [List.length_append, tsxSuffix]
  rw [hlen, List.take_left]

/-- C9 counterexample input: the listing entry `{name: "a.tsx", type: "dir"}`
is not of type `"file"`, yet the `utils.ts` listing still returns the
component name `"a"` for it (the `index.ts` listing correctly drops it). -/
theorem getComponentsUtils_keeps_dir_entry :
    getComponentsUtils [⟨"a.tsx", "dir"⟩] = ["a"] ∧
    getComponentsIndex [⟨"a.tsx", "dir"⟩] = [] ∧
    ("dir" : String) ≠ "file" := by
  decide

/-- C9: the names returned by the `index.ts` listing are exactly the entries
of type `"file"` whose name is some component name followed by `".tsx"`,
mapped by stripping that extension from the end; the `utils.ts` listing does
not satisfy this (it ignores the entry type). -/
theorem getComponentsIndex_characterization (entries : List DirEntry)
    (c : String) :
    c ∈ getComponentsIndex entries ↔
      ∃ e, e ∈ entries ∧ e.type = "file" ∧ e.name = c ++ ".tsx" := by
  rw [getComponentsIndex, List.mem_map]
  constructor
  · rintro ⟨e, he, hmap⟩
    rw [List.mem_filter] at he
    obtain ⟨hmem, hp⟩ := he
    rw [Bool.and_eq_true, beq_iff_eq] at hp
    obtain ⟨htype, hsuf⟩ := hp
    refine ⟨e, hmem, htype, ?_⟩
    rw [endsWithTsx] at hsuf
    obtain ⟨pre, hpre⟩ := List.isSuffixOf_iff_suffix.mp hsuf
    have hname : e.name = String.mk pre ++ ".tsx" := by
      have : (String.mk pre ++ ".tsx").data = pre ++ tsxSuffix := by
        rw [String.data_append, tsx_data]
      apply String.ext
      rw [this, hpre]
    rw [hname] at hmap ⊢
    rw [replaceEndTsx_append] at hmap
    rw [hmap]
  · rintro ⟨e, hmem, htype, hname⟩
    refine ⟨e, ?_, ?_⟩
    · rw [List.mem_filter]
      refine ⟨hmem, ?_⟩
      rw [Bool.and_eq_true, beq_iff_eq]
      refine ⟨htype, ?_⟩
      rw [hname, endsWithTsx, String.data_append, tsx_data]
      exact List.isSuffixOf_iff_suffix.mpr ⟨c.data, rfl⟩
    · rw [hname, replaceEndTsx_append]

/-- Witness for `getComponentsIndex_characterization`: `button.tsx` as a
file entry yields exactly the component name `button`. -/
theorem getComponentsIndex_characterization_witness :
    ("button" : String) ∈ getComponentsIndex [⟨"button.tsx", "file"⟩] :=
  (getComponentsIndex_characterization [⟨"button.tsx", "file"⟩] "button").mpr
    ⟨⟨"button.tsx", "file"⟩, by decide, rfl, by decide⟩

end Advantis
